import Mathlib

/-!
# Verification of the ns-web typed record store core

Shallow embedding of the record-store core of the `ns-web` repository:
the key codec, the per-record-type value codecs, the record state reducer
(`loadResolverData` in `src/pages/RecordsPage.tsx`) and the update
submitter (`updateRecord` ibid.).

Bytes are modelled as `Nat` values (`Uint8Array` entries), byte strings as
`List Nat`, and JS strings as Lean `String`s (sequences of Unicode scalar
values).  The `TextEncoder`/`TextDecoder` pair used by the source is
modelled by an explicit UTF-8 encoder/decoder on code points; the decoder
follows the WHATWG algorithm (invalid sequences produce U+FFFD, the
decoder never throws, matching `new TextDecoder()` in replacement mode).
-/

namespace NsWeb

/-! ## UTF-8 encoding (TextEncoder)

`utf8EncodeChar` encodes one Unicode scalar value.  The arithmetic form
`0xC0 + c / 64` etc. is used instead of the equivalent bitwise
`0xC0 ||| (c >>> 6)`: for code points in the branch ranges the summands
occupy disjoint bit positions, so the two forms coincide. -/

def utf8EncodeChar (c : Nat) : List Nat :=
  if c < 0x80 then [c]
  else if c < 0x800 then [0xC0 + c / 64, 0x80 + c % 64]
  else if c < 0x10000 then [0xE0 + c / 4096, 0x80 + c / 64 % 64, 0x80 + c % 64]
  else [0xF0 + c / 262144, 0x80 + c / 4096 % 64, 0x80 + c / 64 % 64, 0x80 + c % 64]

/-- Model of ethers `toUtf8Bytes` / `TextEncoder.encode`. -/
def utf8Encode (s : String) : List Nat :=
  s.data.flatMap (fun ch => utf8EncodeChar ch.toNat)

/-! ## UTF-8 decoding (TextDecoder)

WHATWG UTF-8 decoder on byte lists, producing the list of decoded code
points.  The admissible range of the first continuation byte depends on
the leading byte (the "UTF-8 lower/upper boundary" variables of the
WHATWG algorithm). -/

/-- Lower bound for the first continuation byte of a 3-byte sequence. -/
def utf8Lo3 (b0 : Nat) : Nat := if b0 = 0xE0 then 0xA0 else 0x80

/-- Upper bound for the first continuation byte of a 3-byte sequence. -/
def utf8Hi3 (b0 : Nat) : Nat := if b0 = 0xED then 0x9F else 0xBF

/-- Lower bound for the first continuation byte of a 4-byte sequence. -/
def utf8Lo4 (b0 : Nat) : Nat := if b0 = 0xF0 then 0x90 else 0x80

/-- Upper bound for the first continuation byte of a 4-byte sequence. -/
def utf8Hi4 (b0 : Nat) : Nat := if b0 = 0xF4 then 0x8F else 0xBF

/-- WHATWG UTF-8 decode to code points; malformed input yields U+FFFD
    (replacement character) and the decoder resynchronises at the
    offending byte, as `new TextDecoder().decode` does. -/
def utf8Decode : List Nat → List Nat
  | [] => []
  | b0 :: rest =>
    if b0 < 0x80 then b0 :: utf8Decode rest
    else if 0xC2 ≤ b0 ∧ b0 ≤ 0xDF then
      match rest with
      | [] => [0xFFFD]
      | b1 :: rest1 =>
        if 0x80 ≤ b1 ∧ b1 ≤ 0xBF then
          ((b0 - 0xC0) * 64 + (b1 - 0x80)) :: utf8Decode rest1
        else 0xFFFD :: utf8Decode (b1 :: rest1)
    else if 0xE0 ≤ b0 ∧ b0 ≤ 0xEF then
      match rest with
      | [] => [0xFFFD]
      | b1 :: rest1 =>
        if utf8Lo3 b0 ≤ b1 ∧ b1 ≤ utf8Hi3 b0 then
          match rest1 with
          | [] => [0xFFFD]
          | b2 :: rest2 =>
            if 0x80 ≤ b2 ∧ b2 ≤ 0xBF then
              ((b0 - 0xE0) * 4096 + (b1 - 0x80) * 64 + (b2 - 0x80)) :: utf8Decode rest2
            else 0xFFFD :: utf8Decode (b2 :: rest2)
        else 0xFFFD :: utf8Decode (b1 :: rest1)
    else if 0xF0 ≤ b0 ∧ b0 ≤ 0xF4 then
      match rest with
      | [] => [0xFFFD]
      | b1 :: rest1 =>
        if utf8Lo4 b0 ≤ b1 ∧ b1 ≤ utf8Hi4 b0 then
          match rest1 with
          | [] => [0xFFFD]
          | b2 :: rest2 =>
            if 0x80 ≤ b2 ∧ b2 ≤ 0xBF then
              match rest2 with
              | [] => [0xFFFD]
              | b3 :: rest3 =>
                if 0x80 ≤ b3 ∧ b3 ≤ 0xBF then
                  ((b0 - 0xF0) * 262144 + (b1 - 0x80) * 4096 + (b2 - 0x80) * 64 + (b3 - 0x80)) ::
                    utf8Decode rest3
                else 0xFFFD :: utf8Decode (b3 :: rest3)
            else 0xFFFD :: utf8Decode (b2 :: rest2)
        else 0xFFFD :: utf8Decode (b1 :: rest1)
    else 0xFFFD :: utf8Decode rest

/-- `TextDecoder.decode` as a Lean `String`. -/
def decodeString (bs : List Nat) : String :=
  ⟨(utf8Decode bs).map Char.ofNat⟩

/-! ## Key codec

The source converts a name or label to `bytes32` by
`new Uint8Array(32); u.set(toUtf8Bytes(text).slice(0, 32))`: UTF-8
encode, truncate to 32 bytes, zero-pad on the right
(`RecordsPage.tsx` lines 165-169 and 255-264, `web3.ts` lines 97-101). -/

/-- Truncate to 32 bytes and zero-pad on the right (`Uint8Array(32)` + `set(slice(0,32))`). -/
def toBytes32 (bs : List Nat) : List Nat :=
  bs.take 32 ++ List.replicate (32 - (bs.take 32).length) 0

/-- Fixed-width key for a name or label. -/
def encodeKey (s : String) : List Nat :=
  toBytes32 (utf8Encode s)

/-- Model of `.replace(/\0/g, '')`: remove every NUL character. -/
def removeNul (s : String) : String :=
  ⟨s.data.filter (fun c => c ≠ '\x00')⟩

/-- Key decoding used for labels and names read back from events:
`new TextDecoder().decode(bytes).replace(/\0/g, '')`. -/
def decodeKey (bs : List Nat) : String :=
  removeNul (decodeString bs)

/-! ## Record type constants

Translated from `src/constants/recordTypes.ts` (bundled as the third
segment of the `HomePage.tsx` source file): DNS-standard types at small
integers, address records in 0xFF00-0xFF3F, identity records in
0xFF40-0xFF7F, content records in 0xFF80-0xFFBF.  (The source's comment
next to `TYPE_DID` reads `0xFF42`, but its value is 65345 = 0xFF41; the
value is what the code compares against.) -/

namespace RecordTypes

def TYPE_A : Nat := 1
def TYPE_TXT : Nat := 16
def TYPE_ETH_ADDRESS : Nat := 65280
def TYPE_BTC_ADDRESS : Nat := 65281
def TYPE_SOL_ADDRESS : Nat := 65282
def TYPE_PUBKEY : Nat := 65344
def TYPE_DID : Nat := 65345
def TYPE_CONTENT_HASH : Nat := 65408
def TYPE_IPFS_CID : Nat := 65409
def TYPE_SWARM_HASH : Nat := 65410
def TYPE_ARWEAVE_ID : Nat := 65411

end RecordTypes

/-- Test used at both decode and encode sites:
`recordType === TYPE_ETH_ADDRESS || recordType === TYPE_BTC_ADDRESS || recordType === TYPE_SOL_ADDRESS`. -/
def isAddressType (t : Nat) : Bool :=
  t == RecordTypes.TYPE_ETH_ADDRESS || t == RecordTypes.TYPE_BTC_ADDRESS ||
    t == RecordTypes.TYPE_SOL_ADDRESS

/-! ## Hex strings

Event data travels as `0x`-prefixed hex strings; the source converts
between them and `Uint8Array`s with
`Array.from(bytes).map(b => b.toString(16).padStart(2, '0')).join('')`. -/

/-- Lowercase hex digit for a value below 16. -/
def hexDigit (n : Nat) : Char :=
  if n < 10 then Char.ofNat ('0'.toNat + n) else Char.ofNat ('a'.toNat + n - 10)

/-- Two-digit lowercase hex rendering of one byte (`toString(16).padStart(2, '0')`). -/
def byteHex (b : Nat) : List Char :=
  [hexDigit (b / 16 % 16), hexDigit (b % 16)]

/-- The `0x`-prefixed hex string of a byte list. -/
def hexOfBytes (bs : List Nat) : String :=
  "0x" ++ ⟨bs.flatMap byteHex⟩

/-! ## Address value codec (ethers `AbiCoder` for the `address` type)

`abiCoder.encode(['address'], [v])` produces one 32-byte word: 12 zero
bytes followed by the 20 address bytes.  `abiCoder.decode(['address'], d)`
reads one 32-byte word (throwing on short data or on a value wider than
160 bits, i.e. a nonzero byte among the first 12; excess bytes after the
word are ignored by the reader) and renders the low 20 bytes as an
address.  The EIP-55 mixed-case display checksum the library applies when
rendering is not modelled; addresses render as lowercase hex here. -/

def abiEncodeAddress (addr : List Nat) : List Nat :=
  List.replicate 12 0 ++ addr

/-- `none` models the coder throwing (wrong length or shape). -/
def abiDecodeAddress (bs : List Nat) : Option (List Nat) :=
  if 32 ≤ bs.length ∧ (bs.take 12).all (· = 0) then some ((bs.drop 12).take 20)
  else none

/-! ## Value decoding (`loadResolverData`, RecordsPage.tsx lines 203-226)

For address-band types the data is ABI-decoded as an address, the raw hex
string being the fallback when the coder throws; every other type is
decoded as UTF-8 text.  (The `try`/`catch` around the text branch is dead:
`TextDecoder` in its default replacement mode never throws.) -/

def decodeText (bs : List Nat) : String :=
  decodeString bs

def decodeData (t : Nat) (bs : List Nat) : String :=
  if isAddressType t then
    match abiDecodeAddress bs with
    | some a => hexOfBytes a
    | none => hexOfBytes bs
  else decodeText bs

/-! ## Events and the record state reducer -/

/-- One `RecordChanged` event, as delivered by the ledger in ledger order:
`event.args = [name, label, recordType, data]`.  `data = []` models the
`'0x'` empty payload. -/
structure ChangeEvent where
  name : List Nat
  label : List Nat
  recordType : Nat
  data : List Nat
deriving DecidableEq, Repr

/-- One entry of the reconstructed record state. -/
structure RecordData where
  recordType : Nat
  label : String
  data : List Nat
  decodedValue : String
deriving DecidableEq, Repr

/-- Label decoding in the reducer (lines 186-199): the all-zero key decodes
to the empty label, any other key is UTF-8 decoded with every NUL removed. -/
def decodeLabel (lb : List Nat) : String :=
  if lb = List.replicate 32 0 then "" else removeNul (decodeString lb)

/-- Map key used by the reducer: `` `${recordType}-${label}` `` (line 201). -/
def eventKey (e : ChangeEvent) : String :=
  toString e.recordType ++ "-" ++ decodeLabel e.label

/-- The entry an event contributes (lines 203-228): empty data yields an
empty decoded value but still produces an entry. -/
def processEvent (e : ChangeEvent) : RecordData :=
  { recordType := e.recordType
    label := decodeLabel e.label
    data := e.data
    decodedValue := if e.data = [] then "" else decodeData e.recordType e.data }

/-- One `recordMap.set(recordKey, ...)` step; the map is modelled by its
lookup function. -/
def reduceStep (m : String → Option RecordData) (e : ChangeEvent) :
    String → Option RecordData :=
  fun k => if k = eventKey e then some (processEvent e) else m k

/-- The record state reducer: fold the events, in ledger order, into a
mapping from record key to latest entry (lines 176-229). -/
def reduce (events : List ChangeEvent) : String → Option RecordData :=
  events.foldl reduceStep (fun _ => none)

/-! ## JS string helpers used by the submitter and the registration form -/

/-- Code points JS `String.prototype.trim` removes (WhiteSpace and
LineTerminator of the ECMAScript grammar). -/
def jsWhitespaceCodes : List Nat :=
  [0x9, 0xA, 0xB, 0xC, 0xD, 0x20, 0xA0, 0x1680,
   0x2000, 0x2001, 0x2002, 0x2003, 0x2004, 0x2005, 0x2006, 0x2007,
   0x2008, 0x2009, 0x200A, 0x2028, 0x2029, 0x202F, 0x205F, 0x3000, 0xFEFF]

def isJsWhitespace (c : Char) : Bool :=
  c.toNat ∈ jsWhitespaceCodes

/-- Model of `label.trim()`. -/
def trimJS (s : String) : String :=
  ⟨((s.data.dropWhile isJsWhitespace).reverse.dropWhile isJsWhitespace).reverse⟩

/-- Model of `value.toLowerCase()` on the ASCII range (the full Unicode
case mapping of JS agrees with this on ASCII, the character set domain
names use here). -/
def lowerChar (c : Char) : Char :=
  if 65 ≤ c.toNat ∧ c.toNat ≤ 90 then Char.ofNat (c.toNat + 32) else c

def toLowerJS (s : String) : String :=
  ⟨s.data.map lowerChar⟩

/-- The HomePage registration input handler
`setRegisterUsername(e.target.value.toLowerCase())`
(HomePage.tsx): the name that later reaches `encodeKey` is the lowercased
input. -/
def registerUsernameNormalize (s : String) : String :=
  toLowerJS s

/-! ## Record update submitter (`updateRecord`, RecordsPage.tsx lines 240-295) -/

/-- Hex digit value, accepting both cases (ethers address parsing). -/
def hexDigitVal (c : Char) : Option Nat :=
  if '0' ≤ c ∧ c ≤ '9' then some (c.toNat - '0'.toNat)
  else if 'a' ≤ c ∧ c ≤ 'f' then some (c.toNat - 'a'.toNat + 10)
  else if 'A' ≤ c ∧ c ≤ 'F' then some (c.toNat - 'A'.toNat + 10)
  else none

def parseHexPairs : List Char → Option (List Nat)
  | [] => some []
  | [_] => none
  | c1 :: c2 :: rest =>
    match hexDigitVal c1, hexDigitVal c2, parseHexPairs rest with
    | some h, some l, some bs => some ((h * 16 + l) :: bs)
    | _, _, _ => none

/-- Model of ethers `getAddress`-style parsing inside
`abiCoder.encode(['address'], [value])`: a `0x`-prefixed 40-hex-digit
string yields its 20 bytes, anything else throws (`none`).  The EIP-55
checksum validation of mixed-case inputs is not modelled. -/
def parseAddress (s : String) : Option (List Nat) :=
  match s.data with
  | '0' :: 'x' :: rest => if rest.length = 40 then parseHexPairs rest else none
  | _ => none

/-- Data encoding by record type (lines 266-278): address band is
ABI-encoded as an address (throwing on an unparsable value, modelled by
`none`), everything else is raw UTF-8 bytes. -/
def encodeData (t : Nat) (value : String) : Option (List Nat) :=
  if isAddressType t then (parseAddress value).map abiEncodeAddress
  else some (utf8Encode value)

/-- Label key encoding at the submit site (lines 255-264): an empty or
whitespace-only label becomes the all-zero 32-byte sentinel, any other
label is UTF-8 encoded, truncated to 32 bytes and zero-padded. -/
def encodeLabelKey (label : String) : List Nat :=
  if label = "" ∨ trimJS label = "" then List.replicate 32 0
  else toBytes32 (utf8Encode label)

/-- Arguments of a `resolver.setRecord(nameHex, recordType, labelHex, encodedData)` submission. -/
structure SetRecordCall where
  name : List Nat
  recordType : Nat
  label : List Nat
  data : List Nat
deriving DecidableEq, Repr

/-- Errors the submitter surfaces to the UI via `setError` in its `catch`. -/
inductive SubmitError where
  /-- An exception thrown while encoding (e.g. an unparsable address value). -/
  | encodeFailed : SubmitError
deriving DecidableEq, Repr

/-- Observable outcome of one `updateRecord` call: the ledger submissions
performed and the error surfaced, if any. -/
structure UpdateOutcome where
  calls : List SetRecordCall
  error : Option SubmitError
deriving DecidableEq, Repr

/-- Model of `updateRecord(recordType, label, value)` (lines 240-295).
The guard `if (!domainName || !value || !walletClient) return;` exits
silently: no submission and no error.  Otherwise name and label are
encoded as fixed keys, the value via the type's codec, and one
`setRecord` call is issued. -/
def updateRecord (hasWallet : Bool) (domainName : String) (recordType : Nat)
    (label value : String) : UpdateOutcome :=
  if domainName = "" ∨ value = "" ∨ hasWallet = false then
    { calls := [], error := none }
  else
    match encodeData recordType value with
    | none => { calls := [], error := some .encodeFailed }
    | some d =>
      { calls := [{ name := encodeKey domainName
                    recordType := recordType
                    label := encodeLabelKey label
                    data := d }]
        error := none }

/-! ## Lemmas: UTF-8 decoder steps -/

theorem utf8Decode_one (b0 : Nat) (bs : List Nat) (h : b0 < 0x80) :
    utf8Decode (b0 :: bs) = b0 :: utf8Decode bs := by
  rw [utf8Decode.eq_def]
  simp only
  rw [if_pos h]

theorem utf8Decode_two (b0 b1 : Nat) (bs : List Nat)
    (h0 : 0xC2 ≤ b0 ∧ b0 ≤ 0xDF) (h1 : 0x80 ≤ b1 ∧ b1 ≤ 0xBF) :
    utf8Decode (b0 :: b1 :: bs) = ((b0 - 0xC0) * 64 + (b1 - 0x80)) :: utf8Decode bs := by
  rw [utf8Decode.eq_def]
  simp only
  rw [if_neg (by omega), if_pos h0, if_pos h1]

theorem utf8Decode_three (b0 b1 b2 : Nat) (bs : List Nat)
    (h0 : 0xE0 ≤ b0 ∧ b0 ≤ 0xEF) (h1 : utf8Lo3 b0 ≤ b1 ∧ b1 ≤ utf8Hi3 b0)
    (h2 : 0x80 ≤ b2 ∧ b2 ≤ 0xBF) :
    utf8Decode (b0 :: b1 :: b2 :: bs) =
      ((b0 - 0xE0) * 4096 + (b1 - 0x80) * 64 + (b2 - 0x80)) :: utf8Decode bs := by
  rw [utf8Decode.eq_def]
  simp only
  rw [if_neg (by omega), if_neg (by omega), if_pos h0, if_pos h1, if_pos h2]

theorem utf8Decode_four (b0 b1 b2 b3 : Nat) (bs : List Nat)
    (h0 : 0xF0 ≤ b0 ∧ b0 ≤ 0xF4) (h1 : utf8Lo4 b0 ≤ b1 ∧ b1 ≤ utf8Hi4 b0)
    (h2 : 0x80 ≤ b2 ∧ b2 ≤ 0xBF) (h3 : 0x80 ≤ b3 ∧ b3 ≤ 0xBF) :
    utf8Decode (b0 :: b1 :: b2 :: b3 :: bs) =
      ((b0 - 0xF0) * 262144 + (b1 - 0x80) * 4096 + (b2 - 0x80) * 64 + (b3 - 0x80)) ::
        utf8Decode bs := by
  rw [utf8Decode.eq_def]
  simp only
  rw [if_neg (by omega), if_neg (by omega), if_neg (by omega), if_pos h0, if_pos h1,
    if_pos h2, if_pos h3]

/-! ## Lemmas: the UTF-8 round trip -/

/-- Decoding the encoding of one Unicode scalar value recovers it and
leaves the remaining bytes untouched. -/
theorem utf8Decode_encodeChar (c : Nat) (hv : c < 0xD800 ∨ (0xDFFF < c ∧ c < 0x110000))
    (rest : List Nat) :
    utf8Decode (utf8EncodeChar c ++ rest) = c :: utf8Decode rest := by
  rcases Nat.lt_or_ge c 0x80 with h1 | h1
  · have he : utf8EncodeChar c = [c] := by rw [utf8EncodeChar, if_pos h1]
    rw [he, List.cons_append, List.nil_append, utf8Decode_one _ _ h1]
  rcases Nat.lt_or_ge c 0x800 with h2 | h2
  · have he : utf8EncodeChar c = [0xC0 + c / 64, 0x80 + c % 64] := by
      rw [utf8EncodeChar, if_neg (by omega), if_pos h2]
    rw [he]
    simp only [List.cons_append, List.nil_append]
    rw [utf8Decode_two _ _ _ (by omega) (by omega)]
    have hval : (0xC0 + c / 64 - 0xC0) * 64 + (0x80 + c % 64 - 0x80) = c := by omega
    rw [hval]
  rcases Nat.lt_or_ge c 0x10000 with h3 | h3
  · have he : utf8EncodeChar c = [0xE0 + c / 4096, 0x80 + c / 64 % 64, 0x80 + c % 64] := by
      rw [utf8EncodeChar, if_neg (by omega), if_neg (by omega), if_pos h3]
    rw [he]
    simp only [List.cons_append, List.nil_append]
    rw [utf8Decode_three _ _ _ _ (by omega) ?hb (by omega)]
    case hb =>
      constructor
      · rw [utf8Lo3]
        rcases Nat.lt_or_ge c 0x1000 with h4 | h4
        · rw [if_pos (by omega)]; omega
        · rw [if_neg (by omega)]; omega
      · rw [utf8Hi3]
        rcases Nat.lt_or_ge c 0xD000 with h4 | h4
        · rw [if_neg (by omega)]; omega
        rcases Nat.lt_or_ge c 0xE000 with h5 | h5
        · rw [if_pos (by omega)]; omega
        · rw [if_neg (by omega)]; omega
    have hval : (0xE0 + c / 4096 - 0xE0) * 4096 + (0x80 + c / 64 % 64 - 0x80) * 64 +
        (0x80 + c % 64 - 0x80) = c := by omega
    rw [hval]
  · have hv4 : c < 0x110000 := by omega
    have he : utf8EncodeChar c =
        [0xF0 + c / 262144, 0x80 + c / 4096 % 64, 0x80 + c / 64 % 64, 0x80 + c % 64] := by
      rw [utf8EncodeChar, if_neg (by omega), if_neg (by omega), if_neg (by omega)]
    rw [he]
    simp only [List.cons_append, List.nil_append]
    rw [utf8Decode_four _ _ _ _ _ (by omega) ?hb (by omega) (by omega)]
    case hb =>
      constructor
      · rw [utf8Lo4]
        rcases Nat.lt_or_ge c 0x40000 with h4 | h4
        · rw [if_pos (by omega)]; omega
        · rw [if_neg (by omega)]; omega
      · rw [utf8Hi4]
        rcases Nat.lt_or_ge c 0x100000 with h4 | h4
        · rw [if_neg (by omega)]; omega
        · rw [if_pos (by omega)]; omega
    have hval : (0xF0 + c / 262144 - 0xF0) * 262144 + (0x80 + c / 4096 % 64 - 0x80) * 4096 +
        (0x80 + c / 64 % 64 - 0x80) * 64 + (0x80 + c % 64 - 0x80) = c := by omega
    rw [hval]

/-- Every Lean `Char` carries a valid Unicode scalar value. -/
theorem char_toNat_valid (c : Char) :
    c.toNat < 0xD800 ∨ (0xDFFF < c.toNat ∧ c.toNat < 0x110000) := by
  rcases c.valid with h | ⟨h1, h2⟩
  · left
    exact UInt32.toNat_lt_of_lt (by decide) h
  · right
    exact ⟨UInt32.lt_toNat_of_lt (by decide) h1, UInt32.toNat_lt_of_lt (by decide) h2⟩

theorem utf8Decode_flatMap (cs : List Nat)
    (h : ∀ c ∈ cs, c < 0xD800 ∨ (0xDFFF < c ∧ c < 0x110000)) :
    utf8Decode (cs.flatMap utf8EncodeChar) = cs := by
  induction cs with
  | nil => rfl
  | cons c cs ih =>
    rw [List.flatMap_cons, utf8Decode_encodeChar c (h c (by simp)) _,
      ih (fun x hx => h x (by simp [hx]))]

theorem utf8EncodeChar_zero : utf8EncodeChar 0 = [0] := rfl

theorem flatMap_replicate_zero (k : Nat) :
    (List.replicate k 0).flatMap utf8EncodeChar = List.replicate k 0 := by
  induction k with
  | zero => rfl
  | succ k ih => rw [List.replicate_succ, List.flatMap_cons, ih, utf8EncodeChar_zero,
      List.singleton_append]

theorem utf8Encode_eq (s : String) :
    utf8Encode s = (s.data.map Char.toNat).flatMap utf8EncodeChar := by
  rw [utf8Encode, List.flatMap_map]

/-! ## Key codec round trip -/

/-- C3 (amended): for every string whose UTF-8 encoding fits in 32 bytes
and which contains no NUL character, decoding the 32-byte key produced by
encoding it returns the string exactly.  The NUL exclusion is forced:
`decodeKey` strips every zero byte, so NUL characters of the original are
lost (see the counterexample). -/
theorem decodeKey_encodeKey (s : String) (h1 : (utf8Encode s).length ≤ 32)
    (h2 : '\x00' ∉ s.data) : decodeKey (encodeKey s) = s := by
  have hval : ∀ c ∈ s.data.map Char.toNat ++ List.replicate (32 - (utf8Encode s).length) 0,
      c < 0xD800 ∨ (0xDFFF < c ∧ c < 0x110000) := by
    intro c hc
    rcases List.mem_append.mp hc with hc | hc
    · obtain ⟨ch, _, rfl⟩ := List.mem_map.mp hc
      exact char_toNat_valid ch
    · rw [List.eq_of_mem_replicate hc]
      left
      omega
  have henc : encodeKey s =
      (s.data.map Char.toNat ++ List.replicate (32 - (utf8Encode s).length) 0).flatMap
        utf8EncodeChar := by
    rw [encodeKey, toBytes32, List.take_of_length_le h1, List.flatMap_append,
      flatMap_replicate_zero, ← utf8Encode_eq]
  rw [decodeKey, decodeString, henc, utf8Decode_flatMap _ hval, List.map_append,
    List.map_map, List.map_replicate]
  have hid : s.data.map (Char.ofNat ∘ Char.toNat) = s.data := by
    simp [Function.comp_def]
  rw [hid, removeNul]
  have hfil : (s.data ++ List.replicate (32 - (utf8Encode s).length) (Char.ofNat 0)).filter
      (fun c => c ≠ '\x00') = s.data := by
    rw [List.filter_append, List.filter_replicate, if_neg (by decide), List.append_nil]
    exact List.filter_eq_self.mpr (fun c hc => decide_eq_true (fun he => h2 (he ▸ hc)))
  simp only [hfil]

/-! ## Lemmas: the reducer as a fold -/

theorem foldl_reduceStep_of_ne (evs : List ChangeEvent) (m : String → Option RecordData)
    (k : String) (h : ∀ e ∈ evs, eventKey e ≠ k) :
    evs.foldl reduceStep m k = m k := by
  induction evs generalizing m with
  | nil => rfl
  | cons e evs ih =>
    rw [List.foldl_cons, ih (reduceStep m e) (fun x hx => h x (by simp [hx]))]
    simp only [reduceStep]
    rw [if_neg (fun he => h e (by simp) he.symm)]

theorem foldl_reduceStep_congr (evs : List ChangeEvent)
    (m1 m2 : String → Option RecordData) (k : String) (h : m1 k = m2 k) :
    evs.foldl reduceStep m1 k = evs.foldl reduceStep m2 k := by
  induction evs generalizing m1 m2 with
  | nil => exact h
  | cons e evs ih =>
    rw [List.foldl_cons, List.foldl_cons]
    apply ih
    simp only [reduceStep]
    by_cases hk : k = eventKey e
    · rw [if_pos hk, if_pos hk]
    · rw [if_neg hk, if_neg hk]
      exact h

/-- Lookup after the fold is determined by the last event for the key:
if no event after `e` touches `e`'s key, the state maps that key to the
entry built from `e`. -/
theorem reduce_last (pre post : List ChangeEvent) (e : ChangeEvent)
    (h : ∀ x ∈ post, eventKey x ≠ eventKey e) :
    reduce (pre ++ e :: post) (eventKey e) = some (processEvent e) := by
  rw [reduce, List.foldl_append, List.foldl_cons, foldl_reduceStep_of_ne post _ _ h]
  simp only [reduceStep]
  rw [if_pos trivial]

/-- Removing an event only changes the state at that event's own key. -/
theorem reduce_skip (pre post : List ChangeEvent) (e : ChangeEvent) (k : String)
    (hk : k ≠ eventKey e) :
    reduce (pre ++ e :: post) k = reduce (pre ++ post) k := by
  rw [reduce, reduce, List.foldl_append, List.foldl_append, List.foldl_cons]
  apply foldl_reduceStep_congr
  simp only [reduceStep]
  rw [if_neg hk]

/-- A 32-byte key equals the all-zero key exactly when the first 32 bytes
of the unpadded encoding are all zero. -/
theorem toBytes32_eq_zeros_iff (bs : List Nat) :
    toBytes32 bs = List.replicate 32 0 ↔ (bs.take 32).all (· = 0) = true := by
  have hlen : (bs.take 32).length ≤ 32 := by
    simp only [List.length_take]
    exact Nat.min_le_left 32 bs.length
  rw [toBytes32, List.eq_replicate_iff, List.all_eq_true]
  constructor
  · rintro ⟨-, hall⟩ b hb
    exact decide_eq_true (hall b (List.mem_append_left _ hb))
  · intro hall
    refine ⟨by simp only [List.length_append, List.length_replicate]; omega, ?_⟩
    intro b hb
    rcases List.mem_append.mp hb with hb | hb
    · exact of_decide_eq_true (hall b hb)
    · exact List.eq_of_mem_replicate hb

theorem char_toNat_ofNat (n : Nat) (h : n < 0xD800) : (Char.ofNat n).toNat = n := by
  rw [Char.ofNat, dif_pos (Or.inl h), Char.ofNatAux]
  simp [Char.toNat, UInt32.ofNat', UInt32.toNat]

theorem lowerChar_idem (c : Char) : lowerChar (lowerChar c) = lowerChar c := by
  by_cases h : 65 ≤ c.toNat ∧ c.toNat ≤ 90
  · have hin : lowerChar c = Char.ofNat (c.toNat + 32) := by rw [lowerChar, if_pos h]
    have ht : (Char.ofNat (c.toNat + 32)).toNat = c.toNat + 32 :=
      char_toNat_ofNat _ (by omega)
    rw [hin, lowerChar, if_neg (by rw [ht]; omega)]
  · have hin : lowerChar c = c := by rw [lowerChar, if_neg h]
    rw [hin, hin]

/-! ## Claim theorems -/

/-- C1: if the last event for key `k` in the sequence has empty data, the
reduced state still maps `k` to an entry (the key does not disappear) and
that entry's decoded value is empty; a still-later non-empty event for the
same key overrides the empty value with its own decoded data. -/
theorem reduce_tombstone_keeps_key (pre post : List ChangeEvent) (e : ChangeEvent)
    (hd : e.data = []) (hpost : ∀ x ∈ post, eventKey x ≠ eventKey e) :
    reduce (pre ++ e :: post) (eventKey e) =
      some { recordType := e.recordType, label := decodeLabel e.label,
             data := e.data, decodedValue := "" } ∧
    ∀ (mid post2 : List ChangeEvent) (e2 : ChangeEvent),
      eventKey e2 = eventKey e → e2.data ≠ [] →
      (∀ x ∈ post2, eventKey x ≠ eventKey e) →
      reduce (pre ++ e :: (mid ++ e2 :: post2)) (eventKey e) =
        some { recordType := e2.recordType, label := decodeLabel e2.label,
               data := e2.data, decodedValue := decodeData e2.recordType e2.data } := by
  constructor
  · rw [reduce_last pre post e hpost, processEvent, if_pos hd]
  · intro mid post2 e2 hk hd2 hpost2
    have hsplit : pre ++ e :: (mid ++ e2 :: post2) = (pre ++ e :: mid) ++ e2 :: post2 := by
      simp
    rw [hsplit, ← hk,
      reduce_last (pre ++ e :: mid) post2 e2 (by intro x hx; rw [hk]; exact hpost2 x hx),
      processEvent, if_neg hd2]

/-- Witness for C1: events `[{k, "a"}, {k, ""}]` for the TXT type with the
default label reduce to a present entry with empty decoded value. -/
theorem reduce_tombstone_keeps_key_witness :
    (⟨encodeKey "alice", List.replicate 32 0, 16, []⟩ : ChangeEvent).data = [] ∧
    reduce [⟨encodeKey "alice", List.replicate 32 0, 16, [0x61]⟩,
            ⟨encodeKey "alice", List.replicate 32 0, 16, []⟩]
        (eventKey ⟨encodeKey "alice", List.replicate 32 0, 16, []⟩) =
      some { recordType := 16, label := "", data := [], decodedValue := "" } := by
  refine ⟨rfl, ?_⟩
  have h := (reduce_tombstone_keeps_key
    [⟨encodeKey "alice", List.replicate 32 0, 16, [0x61]⟩] []
    ⟨encodeKey "alice", List.replicate 32 0, 16, []⟩ rfl (by simp)).1
  exact h

/-- C4: last-writer-wins — whenever event `e2` is the last event for its
key in the sequence, any earlier event `e1` for the same key is fully
superseded: the reduced state maps the key to the entry built from `e2`. -/
theorem reduce_last_writer_wins (pre mid post : List ChangeEvent) (e1 e2 : ChangeEvent)
    (hk : eventKey e1 = eventKey e2)
    (hpost : ∀ x ∈ post, eventKey x ≠ eventKey e2) :
    reduce (pre ++ e1 :: (mid ++ e2 :: post)) (eventKey e1) = some (processEvent e2) := by
  have hsplit : pre ++ e1 :: (mid ++ e2 :: post) = (pre ++ e1 :: mid) ++ e2 :: post := by
    simp
  rw [hk, hsplit, reduce_last _ _ _ hpost]

/-- Witness for C4: `[{k, "a"}, {k, "b"}]` reduces to value `"b"` for `k`. -/
theorem reduce_last_writer_wins_witness :
    reduce [⟨encodeKey "alice", List.replicate 32 0, 16, [0x61]⟩,
            ⟨encodeKey "alice", List.replicate 32 0, 16, [0x62]⟩]
        (eventKey ⟨encodeKey "alice", List.replicate 32 0, 16, [0x61]⟩) =
      some { recordType := 16, label := "", data := [0x62], decodedValue := "b" } := by
  have h := reduce_last_writer_wins [] [] []
    ⟨encodeKey "alice", List.replicate 32 0, 16, [0x61]⟩
    ⟨encodeKey "alice", List.replicate 32 0, 16, [0x62]⟩ rfl (by simp)
  exact h

/-- C6: for an address-band event whose data is not a valid ABI address
word, decoding recovers by falling back to the raw bytes (rendered as the
raw hex string), the event still contributes an entry, and its presence
never disturbs any other key of the reduce pass (no abort). -/
theorem reduce_bad_address_event_recovers (t : Nat) (ht : isAddressType t = true)
    (nm lb bs : List Nat) (hbs : bs ≠ []) (hfail : abiDecodeAddress bs = none)
    (pre post : List ChangeEvent) :
    decodeData t bs = hexOfBytes bs ∧
    processEvent ⟨nm, lb, t, bs⟩ =
      { recordType := t, label := decodeLabel lb, data := bs,
        decodedValue := hexOfBytes bs } ∧
    (∀ k, k ≠ eventKey ⟨nm, lb, t, bs⟩ →
      reduce (pre ++ ⟨nm, lb, t, bs⟩ :: post) k = reduce (pre ++ post) k) := by
  have hdd : decodeData t bs = hexOfBytes bs := by
    rw [decodeData, if_pos ht, hfail]
  refine ⟨hdd, ?_, ?_⟩
  · rw [processEvent, if_neg hbs]
    simp only [hdd]
  · intro k hkk
    exact reduce_skip pre post _ k hkk

/-- Witness for C6: a one-byte payload on an ETH-address record decodes to
its raw hex string `"0x61"` and leaves other keys untouched. -/
theorem reduce_bad_address_event_recovers_witness :
    isAddressType 0xFF00 = true ∧
    abiDecodeAddress [0x61] = none ∧
    decodeData 0xFF00 [0x61] = "0x61" ∧
    reduce [⟨List.replicate 32 0, List.replicate 32 0, 0xFF00, [0x61]⟩] "16-" =
      reduce [] "16-" := by
  have h := reduce_bad_address_event_recovers 0xFF00 (by decide)
    (List.replicate 32 0) (List.replicate 32 0) [0x61] (by decide) (by decide) [] []
  refine ⟨by decide, by decide, ?_, ?_⟩
  · exact h.1.trans (by decide)
  · exact h.2.2 "16-" (by decide)

/-- C5: for every address-band record type, ABI-decoding the 32-byte word
produced by ABI-encoding a 20-byte address value returns that value
exactly, and the registry-level decode renders exactly those 20 bytes. -/
theorem abi_address_roundtrip (t : Nat) (ht : isAddressType t = true)
    (v : List Nat) (hv : v.length = 20) :
    abiDecodeAddress (abiEncodeAddress v) = some v ∧
    decodeData t (abiEncodeAddress v) = hexOfBytes v := by
  have hdec : abiDecodeAddress (abiEncodeAddress v) = some v := by
    rw [abiEncodeAddress, abiDecodeAddress, if_pos ?c]
    case c =>
      constructor
      · rw [List.length_append, List.length_replicate, hv]
      · rw [List.take_left' (by rw [List.length_replicate])]
        simp
    · rw [List.drop_left' (by rw [List.length_replicate]),
        List.take_of_length_le (le_of_eq hv)]
  refine ⟨hdec, ?_⟩
  rw [decodeData, if_pos ht, hdec]

/-- Witness for C5: a concrete 20-byte address round-trips through the
BTC-address codec. -/
theorem abi_address_roundtrip_witness :
    isAddressType 0xFF01 = true ∧
    (List.replicate 20 0x11).length = 20 ∧
    abiDecodeAddress (abiEncodeAddress (List.replicate 20 0x11)) =
      some (List.replicate 20 0x11) :=
  ⟨by decide, by decide,
    (abi_address_roundtrip 0xFF01 (by decide) (List.replicate 20 0x11) (by decide)).1⟩

/-- C7: every record type outside the address band 0xFF00-0xFF3F —
including tags in no defined band — is decoded with the UTF-8 text codec. -/
theorem decode_outside_address_band_is_text (t : Nat) (bs : List Nat)
    (ht : ¬(0xFF00 ≤ t ∧ t ≤ 0xFF3F)) : decodeData t bs = decodeText bs := by
  have hne : isAddressType t = false := by
    rw [isAddressType, RecordTypes.TYPE_ETH_ADDRESS, RecordTypes.TYPE_BTC_ADDRESS,
      RecordTypes.TYPE_SOL_ADDRESS]
    simp only [Bool.or_eq_false_iff, beq_eq_false_iff_ne, ne_eq]
    refine ⟨⟨?_, ?_⟩, ?_⟩ <;> omega
  rw [decodeData, if_neg (by simp [hne])]

/-- Witness for C7: the TXT type (tag 16) decodes `"hi"`'s bytes as text. -/
theorem decode_outside_address_band_is_text_witness :
    ¬(0xFF00 ≤ 16 ∧ 16 ≤ 0xFF3F) ∧
    decodeData 16 [0x68, 0x69] = decodeText [0x68, 0x69] ∧
    decodeText [0x68, 0x69] = "hi" :=
  ⟨by decide, decode_outside_address_band_is_text 16 [0x68, 0x69] (by decide), by decide⟩

/-- C10: reducer entries are keyed by the pair (record type, decoded label
string); since label decoding removes every zero byte, two events of the
same type whose 32-byte labels differ as bytes but decode to the same
string share one entry, and the later event overwrites the earlier. -/
theorem reduce_label_collision (t : Nat) (nm1 nm2 l1 l2 d1 d2 : List Nat)
    (hl : decodeLabel l1 = decodeLabel l2)
    (pre mid post : List ChangeEvent)
    (hpost : ∀ x ∈ post, eventKey x ≠ eventKey (⟨nm2, l2, t, d2⟩ : ChangeEvent)) :
    eventKey (⟨nm1, l1, t, d1⟩ : ChangeEvent) =
      eventKey (⟨nm2, l2, t, d2⟩ : ChangeEvent) ∧
    reduce (pre ++ ⟨nm1, l1, t, d1⟩ :: (mid ++ ⟨nm2, l2, t, d2⟩ :: post))
        (eventKey (⟨nm1, l1, t, d1⟩ : ChangeEvent)) =
      some (processEvent ⟨nm2, l2, t, d2⟩) := by
  have hk : eventKey (⟨nm1, l1, t, d1⟩ : ChangeEvent) =
      eventKey (⟨nm2, l2, t, d2⟩ : ChangeEvent) := by
    rw [eventKey, eventKey]
    simp only
    rw [hl]
  have hsplit : pre ++ ⟨nm1, l1, t, d1⟩ :: (mid ++ ⟨nm2, l2, t, d2⟩ :: post) =
      (pre ++ ⟨nm1, l1, t, d1⟩ :: mid) ++ ⟨nm2, l2, t, d2⟩ :: post := by
    simp
  exact ⟨hk, by rw [hk, hsplit, reduce_last _ _ _ hpost]⟩

/-- Witness for C10: byte-distinct labels `"a\x00b" ++ padding` (embedded
zero byte) and `"ab" ++ padding` decode to the same string `"ab"`, so the
later event overwrites the earlier one's entry. -/
theorem reduce_label_collision_witness :
    ([0x61, 0, 0x62] ++ List.replicate 29 0 : List Nat) ≠
      ([0x61, 0x62] ++ List.replicate 30 0 : List Nat) ∧
    decodeLabel ([0x61, 0, 0x62] ++ List.replicate 29 0) =
      decodeLabel ([0x61, 0x62] ++ List.replicate 30 0) ∧
    reduce [⟨List.replicate 32 0, [0x61, 0, 0x62] ++ List.replicate 29 0, 16, [0x76, 0x31]⟩,
            ⟨List.replicate 32 0, [0x61, 0x62] ++ List.replicate 30 0, 16, [0x76, 0x32]⟩]
        (eventKey ⟨List.replicate 32 0, [0x61, 0, 0x62] ++ List.replicate 29 0, 16,
          [0x76, 0x31]⟩) =
      some { recordType := 16, label := "ab", data := [0x76, 0x32], decodedValue := "v2" } := by
  refine ⟨by decide, by decide, ?_⟩
  have h := (reduce_label_collision 16 (List.replicate 32 0) (List.replicate 32 0)
    ([0x61, 0, 0x62] ++ List.replicate 29 0) ([0x61, 0x62] ++ List.replicate 30 0)
    [0x76, 0x31] [0x76, 0x32] (by decide) [] [] [] (by simp)).2
  exact h

/-- C3 counterexample: the string `"\x00"` has a 1-byte UTF-8 encoding,
well within the 32-byte budget, yet does not round-trip: `decodeKey`
strips every zero byte, so the NUL character is lost. -/
theorem decodeKey_encodeKey_nul_counterexample :
    (utf8Encode "\x00").length ≤ 32 ∧ decodeKey (encodeKey "\x00") ≠ "\x00" := by
  decide

/-- Witness for C3 (amended): `"alice"` (5 UTF-8 bytes, no NUL)
round-trips exactly. -/
theorem decodeKey_encodeKey_witness :
    (utf8Encode "alice").length ≤ 32 ∧ '\x00' ∉ "alice".data ∧
    decodeKey (encodeKey "alice") = "alice" :=
  ⟨by decide, by decide, decodeKey_encodeKey "alice" (by decide) (by decide)⟩

/-- C2 counterexample: submitting with an empty value returns up front —
no ledger call is made, but also no error of any kind is surfaced
(`error = none`), so the call does not "fail with `InvalidValueError`";
the rejection is silent. -/
theorem updateRecord_empty_value_counterexample :
    (updateRecord true "alice" RecordTypes.TYPE_TXT "" "").calls = [] ∧
    (updateRecord true "alice" RecordTypes.TYPE_TXT "" "").error = none := by
  decide

/-- C2 (amended): for every wallet state, name, record type and label, an
empty-value submit performs no ledger append and surfaces no error — the
guard `if (!domainName || !value || !walletClient) return;` exits before
any encoding or submission. -/
theorem updateRecord_empty_value_no_append (w : Bool) (name : String) (t : Nat)
    (label : String) :
    updateRecord w name t label "" = { calls := [], error := none } := by
  rw [updateRecord, if_pos (Or.inr (Or.inl rfl))]

/-- C8 counterexample: the key encoder itself does not lowercase — the
names `"A"` and `"a"` encode to different 32-byte keys. -/
theorem encodeKey_not_case_normalizing_counterexample :
    encodeKey "A" ≠ encodeKey "a" := by
  decide

/-- C8 (amended): lowercase normalization happens at the input boundary,
not in the codec: the registration form stores `value.toLowerCase()`, so
the name that reaches `encodeKey` is the lowercased input, and an input
containing uppercase letters yields the same 32-byte key as its lowercase
form. -/
theorem encodeKey_of_normalized_input_case_insensitive (s : String) :
    encodeKey (registerUsernameNormalize s) =
      encodeKey (registerUsernameNormalize (toLowerJS s)) := by
  suffices h : toLowerJS (toLowerJS s) = toLowerJS s by
    rw [registerUsernameNormalize, registerUsernameNormalize, h]
  show String.mk ((s.data.map lowerChar).map lowerChar) = String.mk (s.data.map lowerChar)
  rw [List.map_map]
  exact congrArg String.mk (List.map_congr_left (fun c _ => lowerChar_idem c))

/-- C9 counterexample: the label `"\x00"` is neither empty nor
whitespace-only (JS `trim` does not remove NUL), yet its encoding is the
all-zero 32-byte key — the "only if" direction of the claimed equivalence
fails. -/
theorem encodeLabelKey_nul_counterexample :
    encodeLabelKey "\x00" = List.replicate 32 0 ∧
    "\x00" ≠ "" ∧ trimJS "\x00" ≠ "" := by
  decide

/-- C9 (amended): in every submit call the label argument is encoded by
`encodeLabelKey`; the result is the all-zero sentinel iff the label is
empty, trims to empty, or the first `min(32, ·)` bytes of its UTF-8
encoding are all zero (e.g. a label made of NUL characters); every label
that does not trim to empty is UTF-8 encoded, truncated to 32 bytes and
zero-padded. -/
theorem encodeLabelKey_spec (label : String) :
    (encodeLabelKey label = List.replicate 32 0 ↔
      label = "" ∨ trimJS label = "" ∨ ((utf8Encode label).take 32).all (· = 0) = true) ∧
    (¬(label = "" ∨ trimJS label = "") →
      encodeLabelKey label = toBytes32 (utf8Encode label)) ∧
    (∀ (w : Bool) (name : String) (t : Nat) (value : String) (c : SetRecordCall),
      c ∈ (updateRecord w name t label value).calls → c.label = encodeLabelKey label) := by
  refine ⟨?_, ?_, ?_⟩
  · by_cases hg : label = "" ∨ trimJS label = ""
    · rw [encodeLabelKey, if_pos hg]
      simp only [true_iff]
      exact hg.imp id Or.inl
    · rw [encodeLabelKey, if_neg hg, toBytes32_eq_zeros_iff]
      constructor
      · exact fun h => Or.inr (Or.inr h)
      · intro h
        rcases h with h | h | h
        · exact absurd (Or.inl h) hg
        · exact absurd (Or.inr h) hg
        · exact h
  · intro hg
    rw [encodeLabelKey, if_neg hg]
  · intro w name t value c hc
    rw [updateRecord] at hc
    by_cases hg : name = "" ∨ value = "" ∨ w = false
    · rw [if_pos hg] at hc
      simp at hc
    · rw [if_neg hg] at hc
      cases hE : encodeData t value with
      | none => rw [hE] at hc; simp at hc
      | some d =>
        rw [hE] at hc
        simp only [List.mem_singleton] at hc
        rw [hc]

/-- Witness for C9 (amended): the label `"a"` does not trim to empty and
is encoded by UTF-8-truncate-pad. -/
theorem encodeLabelKey_spec_witness :
    ¬("a" = "" ∨ trimJS "a" = "") ∧
    encodeLabelKey "a" = toBytes32 (utf8Encode "a") :=
  ⟨by decide, (encodeLabelKey_spec "a").2.1 (by decide)⟩

end NsWeb
